import Mathlib

/-!
Shallow embedding of the gitit repository mirror/renderer (ashhhleyyy/gitit)
for checking its natural-language specification.

The embedding covers:
* `src/utils.rs` — `safe_mime`, the `ObjectId` deserializer (`git_oid_fromstrn`
  semantics), and the `templates` module (`commit_to_object`, `diff_info`,
  `makediff`).
* `src/routes/repo.rs` — the `index`, `commit` and `commit_tree` handlers,
  with `render_file` and `render_tree`.
* `src/update.rs` — `update_refs_info`, `update_head`, and the per-repository
  body of `update_repos` (clone / fetch / ref-index / HEAD sequence).

Library behaviour the code leans on (libgit2 blob binary heuristic, diff
binary detection, tree path lookup, the time-sorted revision walk, and Rust's
UTF-8 validation) is embedded from the corresponding library sources, since
the handlers' observable behaviour depends on it.
-/

namespace Gitit

instance {ε α : Type} [DecidableEq ε] [DecidableEq α] : DecidableEq (Except ε α) :=
  fun a b =>
    match a, b with
    | .ok x, .ok y =>
      if h : x = y then isTrue (by rw [h]) else isFalse (fun hh => h (Except.ok.inj hh))
    | .error x, .error y =>
      if h : x = y then isTrue (by rw [h]) else isFalse (fun hh => h (Except.error.inj hh))
    | .ok _, .error _ => isFalse (fun hh => Except.noConfusion hh)
    | .error _, .ok _ => isFalse (fun hh => Except.noConfusion hh)

/-! ## Git objects: blobs, trees, submodule links

A mutual inductive (instead of `List` nesting) so that all recursions over
trees are structural and kernel-reducible. -/

mutual

inductive GitObject where
  | blob (content : List Nat)
  | submodule (oid : String)
  | tree (entries : TreeEntries)

inductive TreeEntries where
  | nil
  | cons (name : String) (obj : GitObject) (rest : TreeEntries)

end

deriving instance DecidableEq for GitObject, TreeEntries

/-- A commit as stored in the object database: id (40-hex string), parent ids,
commit time, root tree entries, message and author, mirroring what the
handlers read through git2 (`commit.id()`, `commit.parents()`, `commit.time()`,
`commit.tree()`, `commit.message()`, `commit.author()`). -/
structure GCommit where
  id : String
  parents : List String
  time : Int
  treeEntries : TreeEntries
  message : String
  authorName : Option String
  authorEmail : Option String
  deriving DecidableEq

/-- The object store of one mirror, as far as commit lookup is concerned. -/
abbrev Repo := List GCommit

/-- `Repository::find_commit` — lookup by exact object id. -/
def findCommit (repo : Repo) (id : String) : Option GCommit :=
  List.find? (fun c => c.id = id) repo

/-- The error enum of `src/errors.rs` (`GititError`), plus `panicked`, the
outcome of an `unwrap()` failure in handler code (a Rust panic aborts the
request without producing a `GititError`), and `badRequest`, the axum `Path`
deserialization rejection (happens before the handler body runs). -/
inductive GErr where
  | liquidError
  | gitError
  | notFound
  | redirect (target : String)
  | highlightError
  | missingConfig
  | ioError
  | tomlError
  | panicked
  | badRequest
  deriving DecidableEq, Repr

/-! ## Binary classification

`Blob::is_binary` calls libgit2 `git_blob_data_is_binary`, which applies
`git_str_is_binary` to the first 8000 bytes: a BOM beyond UTF-8 means binary,
a NUL byte means binary, otherwise compare `printable >> 7` with the
non-printable count. -/

/-- libgit2 `git_str_detect_bom`: returns (bytes to skip, bom is beyond UTF-8). -/
def detectBom (bs : List Nat) : Nat × Bool :=
  match bs with
  | 0 :: 0 :: 0xFE :: 0xFF :: _ => (4, true)   -- UTF-32 BE
  | 0xEF :: 0xBB :: 0xBF :: _ => (3, false)    -- UTF-8
  | 0xFE :: 0xFF :: _ => (2, true)             -- UTF-16 BE
  | 0xFF :: 0xFE :: 0 :: 0 :: _ => (4, true)   -- UTF-32 LE
  | 0xFF :: 0xFE :: _ => (2, true)             -- UTF-16 LE
  | _ => (0, false)

/-- The scan loop of libgit2 `git_str_is_binary`. -/
def scanBinary : List Nat → Nat → Nat → Bool
  | [], printable, nonprintable => decide ((printable >>> 7) < nonprintable)
  | c :: rest, printable, nonprintable =>
    if 0x1F < c ∧ c ≠ 127 then scanBinary rest (printable + 1) nonprintable
    else if c = 0 then true
    else if c = 8 ∨ c = 27 ∨ c = 12 then scanBinary rest (printable + 1) nonprintable
    else if c = 13 ∨ c = 10 ∨ c = 9 then scanBinary rest printable nonprintable
    else scanBinary rest printable (nonprintable + 1)

/-- libgit2 `git_blob_data_is_binary` (used by `Blob::is_binary` in
`render_file`): `git_str_is_binary` over the first 8000 bytes. -/
def isBinaryBytes (bs : List Nat) : Bool :=
  let t := bs.take 8000
  let sb := detectBom t
  if sb.2 then true else scanBinary (t.drop sb.1) 0 0

/-- libgit2 `git_diff_driver_content_is_binary` (the binary test used by diff
content loading): a NUL byte within the first 8000 bytes. -/
def hasEarlyNul (bs : List Nat) : Bool :=
  (bs.take 8000).contains 0

/-! ## UTF-8 validation (Rust `std::str::from_utf8`) -/

/-- UTF-8 decoder over byte values, following the standard (RFC 3629) table
that Rust's `str::from_utf8` implements; `none` exactly when Rust would return
a `Utf8Error`. -/
def utf8Decode : List Nat → Option (List Char)
  | [] => some []
  | b :: rest =>
    if b ≤ 0x7F then
      (utf8Decode rest).map (fun cs => Char.ofNat b :: cs)
    else if 0xC2 ≤ b ∧ b ≤ 0xDF then
      match rest with
      | b1 :: rest2 =>
        if 0x80 ≤ b1 ∧ b1 ≤ 0xBF then
          (utf8Decode rest2).map (fun cs => Char.ofNat ((b - 0xC0) * 64 + (b1 - 0x80)) :: cs)
        else none
      | [] => none
    else if b = 0xE0 then
      match rest with
      | b1 :: b2 :: rest2 =>
        if (0xA0 ≤ b1 ∧ b1 ≤ 0xBF) ∧ (0x80 ≤ b2 ∧ b2 ≤ 0xBF) then
          (utf8Decode rest2).map
            (fun cs => Char.ofNat (((b - 0xE0) * 4096) + (b1 - 0x80) * 64 + (b2 - 0x80)) :: cs)
        else none
      | _ => none
    else if (0xE1 ≤ b ∧ b ≤ 0xEC) ∨ b = 0xEE ∨ b = 0xEF then
      match rest with
      | b1 :: b2 :: rest2 =>
        if (0x80 ≤ b1 ∧ b1 ≤ 0xBF) ∧ (0x80 ≤ b2 ∧ b2 ≤ 0xBF) then
          (utf8Decode rest2).map
            (fun cs => Char.ofNat (((b - 0xE0) * 4096) + (b1 - 0x80) * 64 + (b2 - 0x80)) :: cs)
        else none
      | _ => none
    else if b = 0xED then
      match rest with
      | b1 :: b2 :: rest2 =>
        if (0x80 ≤ b1 ∧ b1 ≤ 0x9F) ∧ (0x80 ≤ b2 ∧ b2 ≤ 0xBF) then
          (utf8Decode rest2).map
            (fun cs => Char.ofNat (((b - 0xE0) * 4096) + (b1 - 0x80) * 64 + (b2 - 0x80)) :: cs)
        else none
      | _ => none
    else if b = 0xF0 then
      match rest with
      | b1 :: b2 :: b3 :: rest2 =>
        if (0x90 ≤ b1 ∧ b1 ≤ 0xBF) ∧ (0x80 ≤ b2 ∧ b2 ≤ 0xBF) ∧ (0x80 ≤ b3 ∧ b3 ≤ 0xBF) then
          (utf8Decode rest2).map
            (fun cs => Char.ofNat (((b - 0xF0) * 262144) + (b1 - 0x80) * 4096 +
              (b2 - 0x80) * 64 + (b3 - 0x80)) :: cs)
        else none
      | _ => none
    else if 0xF1 ≤ b ∧ b ≤ 0xF3 then
      match rest with
      | b1 :: b2 :: b3 :: rest2 =>
        if (0x80 ≤ b1 ∧ b1 ≤ 0xBF) ∧ (0x80 ≤ b2 ∧ b2 ≤ 0xBF) ∧ (0x80 ≤ b3 ∧ b3 ≤ 0xBF) then
          (utf8Decode rest2).map
            (fun cs => Char.ofNat (((b - 0xF0) * 262144) + (b1 - 0x80) * 4096 +
              (b2 - 0x80) * 64 + (b3 - 0x80)) :: cs)
        else none
      | _ => none
    else if b = 0xF4 then
      match rest with
      | b1 :: b2 :: b3 :: rest2 =>
        if (0x80 ≤ b1 ∧ b1 ≤ 0x8F) ∧ (0x80 ≤ b2 ∧ b2 ≤ 0xBF) ∧ (0x80 ≤ b3 ∧ b3 ≤ 0xBF) then
          (utf8Decode rest2).map
            (fun cs => Char.ofNat (((b - 0xF0) * 262144) + (b1 - 0x80) * 4096 +
              (b2 - 0x80) * 64 + (b3 - 0x80)) :: cs)
        else none
      | _ => none
    else none

/-- `std::str::from_utf8(bytes)` as an `Option String`. -/
def utf8DecodeStr (bs : List Nat) : Option String :=
  (utf8Decode bs).map String.mk

/-! ## Diff model (libgit2 `git_diff_tree_to_tree` + `git_diff_print` with
`DiffFormat::Patch`)

`diff_info` and `full_diff` only observe the per-line origin characters of the
patch printout: `'F'` file headers, `'H'` hunk headers, `'B'` the
"Binary files differ" line, `' '`/`'+'`/`'-'` content lines, and the
end-of-file-newline markers (which are none of these and are irrelevant to
both counters and the marker string, so they are not emitted here). Hunk
splitting by context is not modelled — it only regroups `' '` lines of
modified files and cannot change any `'+'`/`'-'` count. -/

/-- One side of a diff delta: regular blob content, or the
`Subproject commit <oid>\n` pseudo-content libgit2 synthesizes for a
submodule (commit) entry. -/
inductive FileData where
  | blobData (content : List Nat)
  | subData (oid : String)
  deriving DecidableEq, Repr

/-- Split byte content into lines the way diff counts them: chunks separated
by LF, a trailing chunk without LF still a line, empty content zero lines. -/
def splitLinesAux : List Nat → List Nat → List (List Nat)
  | [], acc => if acc.isEmpty then [] else [acc.reverse]
  | 10 :: rest, acc => acc.reverse :: splitLinesAux rest []
  | b :: rest, acc => splitLinesAux rest (b :: acc)

def lineChunks (bs : List Nat) : List (List Nat) :=
  splitLinesAux bs []

/-- The diff lines of one side of a delta. -/
def fileLines (fd : FileData) : List (List Nat) :=
  match fd with
  | .blobData bs => lineChunks bs
  | .subData _ => [[]]  -- "Subproject commit <oid>" : exactly one line

/-- Whether the delta side is treated as binary by diff content loading
(submodule pseudo-content is text). -/
def fileDataBinary (fd : FileData) : Bool :=
  match fd with
  | .blobData bs => hasEarlyNul bs
  | .subData _ => false

mutual

/-- Flatten one tree entry to its (path, content) leaves, as the diff tree
iterator yields them. -/
def flattenObj (pre name : String) : GitObject → List (String × FileData)
  | .blob c => [(pre ++ name, .blobData c)]
  | .submodule o => [(pre ++ name, .subData o)]
  | .tree es => flattenEntriesAux (pre ++ name ++ "/") es

def flattenEntriesAux (pre : String) : TreeEntries → List (String × FileData)
  | .nil => []
  | .cons n o rest => flattenObj pre n o ++ flattenEntriesAux pre rest

end

/-- Patch-print origin characters for a delta whose old side is absent
(status ADDED): file header, then either the binary notice or a hunk of `'+'`
lines (no hunk at all for empty content). -/
def addedDeltaOrigins (fd : FileData) : List Char :=
  'F' :: (if fileDataBinary fd then ['B']
          else if (fileLines fd).length = 0 then []
          else 'H' :: List.replicate (fileLines fd).length '+')

/-- Patch-print origin characters for a delta whose new side is absent
(status DELETED). -/
def deletedDeltaOrigins (fd : FileData) : List Char :=
  'F' :: (if fileDataBinary fd then ['B']
          else if (fileLines fd).length = 0 then []
          else 'H' :: List.replicate (fileLines fd).length '-')

/-- Minimal line alignment (Myers/xdiff produces a minimal edit script; the
`'+'`/`'-'` totals of any minimal script coincide). Fuel is the sum of the
two lengths, which the recursion consumes one element per step. -/
def editOriginsAux : Nat → List (List Nat) → List (List Nat) → List Char
  | _, [], [] => []
  | 0, _, _ => []
  | fuel + 1, [], _ :: bs => '+' :: editOriginsAux fuel [] bs
  | fuel + 1, _ :: as', [] => '-' :: editOriginsAux fuel as' []
  | fuel + 1, a :: as', b :: bs =>
    if a = b then ' ' :: editOriginsAux fuel as' bs
    else
      let d1 := '-' :: editOriginsAux fuel as' (b :: bs)
      let d2 := '+' :: editOriginsAux fuel (a :: as') bs
      if d1.length ≤ d2.length then d1 else d2

def editOrigins (a b : List (List Nat)) : List Char :=
  editOriginsAux (a.length + b.length) a b

/-- Origins of a delta present on both sides: nothing when contents are
identical (no delta is generated), otherwise header plus binary notice or a
line-level edit script. -/
def modifiedDeltaOrigins (oldFd newFd : FileData) : List Char :=
  if oldFd = newFd then []
  else 'F' :: (if fileDataBinary oldFd ∨ fileDataBinary newFd then ['B']
               else 'H' :: editOrigins (fileLines oldFd) (fileLines newFd))

def addedAll : List (String × FileData) → List Char
  | [] => []
  | (_, fd) :: rest => addedDeltaOrigins fd ++ addedAll rest

/-- Merge the two flattened (path-ordered) sides into delta origins. Fuel is
the sum of lengths, consumed one element per step. -/
def mergeDiffAux : Nat → List (String × FileData) → List (String × FileData) → List Char
  | _, [], [] => []
  | 0, _, _ => []
  | fuel + 1, [], (_, fd) :: bs => addedDeltaOrigins fd ++ mergeDiffAux fuel [] bs
  | fuel + 1, (_, fd) :: as', [] => deletedDeltaOrigins fd ++ mergeDiffAux fuel as' []
  | fuel + 1, (pa, fa) :: as', (pb, fb) :: bs =>
    if pa = pb then modifiedDeltaOrigins fa fb ++ mergeDiffAux fuel as' bs
    else if pa < pb then deletedDeltaOrigins fa ++ mergeDiffAux fuel as' ((pb, fb) :: bs)
    else addedDeltaOrigins fb ++ mergeDiffAux fuel ((pa, fa) :: as') bs

/-- `repo.diff_tree_to_tree(a, Some(b), default options)` reduced to its patch
origin stream. `none` is the empty-tree side (every entry of `b` is ADDED). -/
def diffTreeToTree : Option TreeEntries → TreeEntries → List Char
  | none, b => addedAll (flattenEntriesAux "" b)
  | some a, b =>
    let fa := flattenEntriesAux "" a
    let fb := flattenEntriesAux "" b
    mergeDiffAux (fa.length + fb.length) fa fb

/-! ## `src/utils.rs` `templates` module -/

/-- `makediff`: the comparison base is the sole parent's tree when the commit
has exactly one parent, otherwise no tree (libgit2 treats `None` as an empty
tree); errors propagate from `commit.parent(0)` lookup. -/
def makediff (repo : Repo) (c : GCommit) : Except GErr (Option TreeEntries × TreeEntries) :=
  match c.parents with
  | [p] =>
    match findCommit repo p with
    | none => .error .gitError
    | some pc => .ok (some pc.treeEntries, c.treeEntries)
  | _ => .ok (none, c.treeEntries)

/-- `diff_info`: prints the diff as a patch, records the origin character of
every context/add/remove line into the marker string and counts added and
removed lines. -/
def diffInfo (repo : Repo) (c : GCommit) : Except GErr (String × Nat × Nat) :=
  match makediff repo c with
  | .error e => .error e
  | .ok ab =>
    let origins := diffTreeToTree ab.1 ab.2
    .ok (String.mk (origins.filter (fun ch => ch = ' ' ∨ ch = '+' ∨ ch = '-')),
         origins.count '+', origins.count '-')

/-- Break a character list at the first LF, if any. -/
def breakAtLf : List Char → Option (List Char × List Char)
  | [] => none
  | c :: rest =>
    if c = '\n' then some ([], rest)
    else (breakAtLf rest).map (fun p => (c :: p.1, p.2))

/-- Rust `str::split_once('\n')`: summary before the first LF and the rest,
or the whole message with an empty remainder. -/
def splitOnceLf (s : String) : String × String :=
  match breakAtLf s.data with
  | none => (s, "")
  | some p => (String.mk p.1, String.mk p.2)

/-- The rendering-ready view of one commit built by `commit_to_object`. -/
structure CommitSummary where
  hash : String
  shortHash : String
  summary : String
  message : String
  authorName : Option String
  authorEmail : Option String
  added : Nat
  removed : Nat
  diffMarker : String
  deriving DecidableEq, Repr

/-- `commit_to_object` (the panic on a commit whose id renders shorter than 7
characters cannot happen for real 40-hex object ids and is not modelled). -/
def commitToObject (repo : Repo) (c : GCommit) : Except GErr CommitSummary :=
  match diffInfo repo c with
  | .error e => .error e
  | .ok info =>
    let sm := splitOnceLf c.message
    .ok { hash := c.id
          shortHash := (c.id.toList.take 7).asString
          summary := sm.1
          message := sm.2
          authorName := c.authorName
          authorEmail := c.authorEmail
          added := info.2.1
          removed := info.2.2
          diffMarker := info.1 }

/-! ## String primitives

Rust `str` operations, re-expressed over the character list so that every
definition is kernel-computable. `strByteLen` is Rust's `str::len` (UTF-8
byte count). -/

def charUtf8Size (c : Char) : Nat :=
  if c.val.toNat ≤ 0x7F then 1
  else if c.val.toNat ≤ 0x7FF then 2
  else if c.val.toNat ≤ 0xFFFF then 3
  else 4

def strByteLen (s : String) : Nat :=
  (s.data.map charUtf8Size).sum

def strStartsWith (s p : String) : Bool :=
  p.data.isPrefixOf s.data

def strEndsWith (s p : String) : Bool :=
  p.data.isSuffixOf s.data

/-- `&s[1..]` for a string whose first character is one byte wide (the
handler's path captures start with an ASCII `/`). -/
def strDrop1 (s : String) : String :=
  String.mk (s.data.drop 1)

def splitOnCharAux (sep : Char) : List Char → List Char → List (List Char)
  | [], acc => [acc.reverse]
  | c :: rest, acc =>
    if c = sep then acc.reverse :: splitOnCharAux sep rest []
    else splitOnCharAux sep rest (c :: acc)

/-- Split on a separator, `str::split` style: `"a/"` gives `["a", ""]`,
`""` gives `[""]`. -/
def splitOnChar (sep : Char) (cs : List Char) : List (List Char) :=
  splitOnCharAux sep cs []

def charLower (c : Char) : Char :=
  if 'A' ≤ c ∧ c ≤ 'Z' then Char.ofNat (c.toNat + 32) else c

/-! ## MIME inference and `safe_mime` (`src/utils.rs`) -/

/-- `std::path::Path::extension()`: the part of the last path component after
its last `.`; none when there is no `.` or the component is a dot-file with a
single leading dot. -/
def extensionOf (path : String) : Option String :=
  let fname := (splitOnChar '/' path.data).getLastD []
  match splitOnChar '.' fname with
  | [] => none
  | [_] => none
  | [[], _] => none
  | parts => (parts.getLast?).map String.mk

/-- The `mime_guess` extension table, modelled on a representative subset of
its real data (lookup is case-insensitive); `from_path(..).first_or_octet_stream()`
falls back to `application/octet-stream` when the extension is absent or
unknown. `mime_guess` types carry no parameters, so a MIME value is modelled
by its essence string. -/
def mimeGuessByExt (ext : String) : String :=
  let e := (ext.data.map charLower).asString
  if e = "json" then "application/json"
  else if e = "pdf" then "application/pdf"
  else if e = "zip" then "application/zip"
  else if e = "wasm" then "application/wasm"
  else if e = "js" then "application/javascript"
  else if e = "txt" then "text/plain"
  else if e = "md" then "text/markdown"
  else if e = "html" then "text/html"
  else if e = "css" then "text/css"
  else if e = "png" then "image/png"
  else if e = "jpg" then "image/jpeg"
  else if e = "jpeg" then "image/jpeg"
  else if e = "gif" then "image/gif"
  else if e = "svg" then "image/svg+xml"
  else "application/octet-stream"

/-- `mime_guess::from_path(path).first_or_octet_stream()`. -/
def mimeFromPath (path : String) : String :=
  match extensionOf path with
  | none => "application/octet-stream"
  | some e => mimeGuessByExt e

/-- `safe_mime` from `src/utils.rs`: downgrade any `application/*` essence to
the generic octet-stream type. -/
def safeMime (m : String) : String :=
  if strStartsWith m "application/" then "application/octet-stream" else m

/-! ## `ObjectId` deserialization (`src/utils.rs` `OidVisitor`)

`Oid::from_str` is libgit2 `git_oid_fromstrn`: the string must be non-empty,
at most 40 characters, all hex digits; shorter strings are zero-padded on the
right. The resulting oid displays as 40 lowercase hex characters. -/

def isHexChar (c : Char) : Bool :=
  decide (('0' ≤ c ∧ c ≤ '9') ∨ ('a' ≤ c ∧ c ≤ 'f') ∨ ('A' ≤ c ∧ c ≤ 'F'))

def oidFromStr (s : String) : Option String :=
  if s.length = 0 ∨ 40 < s.length then none
  else if s.data.all isHexChar then
    some ((s.data.map charLower).asString ++ (List.replicate (40 - s.length) '0').asString)
  else none

/-- A well-formed full object id as the spec uses the term: exactly 40 hex
characters. -/
def wellFormedOid (s : String) : Bool :=
  s.length = 40 && s.data.all isHexChar

/-! ## `commit_tree`, `render_tree`, `render_file` (`src/routes/repo.rs`)

Liquid template rendering and syntect highlighting are carried structurally:
a rendered page is represented by the data fed into the template (the
embedded templates parse, so the `liquid` error paths are dead at runtime),
and a highlighted file by the `(extension, decoded text)` pair passed to
`syntax_highlight`. -/

inductive RenderOut where
  | treeListing (commitHash path : String) (files : List (String × String))
  | textFile (commitHash path ext content : String)
  | rawFile (contentType : String) (data : List Nat)
  deriving DecidableEq, Repr

/-- The file loop of `render_tree`: tree entries become `"tree"`, blob entries
`"blob"`, any other kind is skipped with a warning. -/
def treeListingEntries : TreeEntries → List (String × String)
  | .nil => []
  | .cons n (.tree _) rest => (n, "tree") :: treeListingEntries rest
  | .cons n (.blob _) rest => (n, "blob") :: treeListingEntries rest
  | .cons _ (.submodule _) rest => treeListingEntries rest

def renderTree (commitHash path : String) (es : TreeEntries) : Except GErr RenderOut :=
  .ok (.treeListing commitHash path (treeListingEntries es))

/-- `render_file`: binary blobs are served raw under the safe MIME type;
text blobs are decoded as UTF-8 — `std::str::from_utf8(..).unwrap()` panics
on invalid UTF-8 — and highlighted keyed by extension (default `"txt"`). -/
def renderFile (commitHash path : String) (content : List Nat) : Except GErr RenderOut :=
  if isBinaryBytes content then
    .ok (.rawFile (safeMime (mimeFromPath path)) content)
  else
    match utf8DecodeStr content with
    | none => .error .panicked
    | some s => .ok (.textFile commitHash path ((extensionOf path).getD "txt") s)

def lookupEntry (name : List Char) : TreeEntries → Option GitObject
  | .nil => none
  | .cons n o rest => if n.data = name then some o else lookupEntry name rest

/-- libgit2 `git_tree_entry_bypath` over the `/`-split components: an empty
component is `ENOTFOUND`; a lone trailing empty component (trailing slash)
requires the entry to be a tree; intermediate components must be trees. All
lookup failures surface as `git2::Error` and hence `GititError::GitError`. -/
def bypathComponents (es : TreeEntries) : List (List Char) → Except GErr GitObject
  | [] => .error .gitError
  | [c] =>
    if c.isEmpty then .error .gitError
    else
      match lookupEntry c es with
      | none => .error .gitError
      | some o => .ok o
  | [c, []] =>
    if c.isEmpty then .error .gitError
    else
      match lookupEntry c es with
      | none => .error .gitError
      | some (.tree es2) => .ok (.tree es2)
      | some _ => .error .gitError
  | c :: rest =>
    if c.isEmpty then .error .gitError
    else
      match lookupEntry c es with
      | none => .error .gitError
      | some (.tree es2) => bypathComponents es2 rest
      | some _ => .error .gitError

/-- `Tree::get_path` (`tree.get_path(Path::new(&path[1..]))`). -/
def treeEntryBypath (es : TreeEntries) (p : String) : Except GErr GitObject :=
  bypathComponents es (splitOnChar '/' p.data)

/-- The component-lookup branch of `commit_tree`: resolve the path minus its
first byte in the commit's tree; a tree entry renders (or redirects when the
path lacks its trailing slash), a blob entry renders as a file, any other
kind is `NotFound`. -/
def commitTreeResolve (c : GCommit) (path uriPath : String)
    (uriQuery : Option String) : Except GErr RenderOut :=
  match treeEntryBypath c.treeEntries (strDrop1 path) with
  | .error e => .error e
  | .ok (.tree es) =>
    if strEndsWith path "/" then renderTree c.id path es
    else
      .error (.redirect (match uriQuery with
        | some q => uriPath ++ "/?" ++ q
        | none => uriPath ++ "/"))
  | .ok (.blob content) => renderFile c.id path content
  | .ok (.submodule _) => .error .notFound

/-- The `commit_tree` handler. `path` is the `*tree_path` capture (it starts
with `/` for every routable request); `uriPath`/`uriQuery` are the
`OriginalUri` path and query. A short path (Rust `path.len() <= 1`, byte
length) renders the root tree directly; otherwise the component lookup of
`commitTreeResolve` runs. -/
def commitTree (repo : Repo) (commitId : String) (path : String)
    (uriPath : String) (uriQuery : Option String) : Except GErr RenderOut :=
  match findCommit repo commitId with
  | none => .error .gitError
  | some c =>
    if strByteLen path ≤ 1 then renderTree c.id path c.treeEntries
    else commitTreeResolve c path uriPath uriQuery

/-! ## The `commit` route (`src/routes/repo.rs::commit`) -/

/-- The HTTP-level outcome of the `commit` route: an axum `Path` rejection
(400) when `ObjectId` deserialization fails, a `GititError` response
otherwise on failure, or the rendered page data. -/
inductive CommitResponse where
  | badRequest
  | errorResponse (e : GErr)
  | page (summary : CommitSummary)
  deriving DecidableEq, Repr

/-- The `commit` handler behind the `Path<(String, ObjectId)>` extractor.
`repoKnown` is whether `repo_from_name` succeeds for the slug. `full_diff`
runs on the same `makediff` result as `commit_to_object` and is carried by
the summary. -/
def commitRoute (repoKnown : Bool) (repo : Repo) (idStr : String) : CommitResponse :=
  match oidFromStr idStr with
  | none => .badRequest
  | some oid =>
    if !repoKnown then .errorResponse .notFound
    else
      match findCommit repo oid with
      | none => .errorResponse .gitError
      | some c =>
        match commitToObject repo c with
        | .error e => .errorResponse e
        | .ok s => .page s

/-! ## The time-sorted revision walk (`index` route)

libgit2 `GIT_SORT_TIME`: a list ordered by commit time (descending,
insertion after all entries of greater or equal time); popping the head
emits it and enqueues its not-yet-seen parents (marked seen on enqueue).
The fuel argument is the number of commits still to emit, so
`revwalkAux repo limit [head] [head.id]` is exactly
`revwalk.take(limit)` collected — stopping silently at the cap, like
`take`, without observing later iterator errors. -/

/-- libgit2 `git_commit_list_insert_by_date`: insert before the first entry
whose time is strictly smaller. -/
def insertByDate (c : GCommit) : List GCommit → List GCommit
  | [] => [c]
  | y :: ys => if y.time < c.time then c :: y :: ys else y :: insertByDate c ys

/-- `add_parents_to_list`: skip seen parents, parse (fail like the iterator
does if the parent object is absent), mark seen, insert by date. -/
def enqueueParents (repo : Repo) : List String → List GCommit → List String →
    Except GErr (List GCommit × List String)
  | [], queue, seen => .ok (queue, seen)
  | p :: ps, queue, seen =>
    if p ∈ seen then enqueueParents repo ps queue seen
    else
      match findCommit repo p with
      | none => .error .gitError
      | some pc => enqueueParents repo ps (insertByDate pc queue) (p :: seen)

def revwalkAux (repo : Repo) : Nat → List GCommit → List String → Except GErr (List GCommit)
  | 0, _, _ => .ok []
  | _ + 1, [], _ => .ok []
  | fuel + 1, c :: queueRest, seen =>
    match enqueueParents repo c.parents queueRest seen with
    | .error e => .error e
    | .ok qs =>
      match revwalkAux repo fuel qs.1 qs.2 with
      | .error e => .error e
      | .ok tl => .ok (c :: tl)

/-- `revwalk` pushed at `headId` with `Sort::TIME`, truncated by
`.take(limit)`. -/
def revwalk (repo : Repo) (headId : String) (limit : Nat) : Except GErr (List GCommit) :=
  match findCommit repo headId with
  | none => .error .gitError
  | some hc => revwalkAux repo limit [hc] [headId]

/-- The commit loop of the `index` handler: each walked commit is converted
by `commit_to_object`, failures aborting the request. -/
def summariesOf (repo : Repo) : List GCommit → Except GErr (List CommitSummary)
  | [] => .ok []
  | c :: rest =>
    match commitToObject repo c with
    | .error e => .error e
    | .ok s =>
      match summariesOf repo rest with
      | .error e => .error e
      | .ok ss => .ok (s :: ss)

/-- The `index` handler's recent-commit listing: the time-sorted walk from
HEAD, capped at 500, each commit rendered to a `CommitSummary`. -/
def indexSummaries (repo : Repo) (headId : String) : Except GErr (List CommitSummary) :=
  match revwalk repo headId 500 with
  | .error e => .error e
  | .ok l => summariesOf repo l

/-! ## The mirror synchronizer (`src/update.rs`) -/

/-- A reference in the mirror's refdb: a direct ref carries an object id, a
symbolic ref only names another ref. `Reference::target()` is `Some` exactly
for direct refs. -/
inductive RefTarget where
  | direct (oid : String)
  | symbolic (ref : String)
  deriving DecidableEq, Repr

structure GRef where
  name : String
  target : RefTarget
  deriving DecidableEq, Repr

/-- `Reference::target()`. -/
def refTargetOid : RefTarget → Option String
  | .direct o => some o
  | .symbolic _ => none

/-- One iteration of the loop of `update_refs_info`: if the reference has a
direct target, append `"<oid>\t<name>\n"` to the output. -/
def refsInfoStep (out : String) (r : GRef) : String :=
  match refTargetOid r.target with
  | some t => out ++ t ++ "\t" ++ r.name ++ "\n"
  | none => out

/-- The string built by the loop of `update_refs_info`. -/
def refsInfoContent (refs : List GRef) : String :=
  refs.foldl refsInfoStep ""

/-- The line emitted for one reference, if any. -/
def refsInfoLine (r : GRef) : Option String :=
  (refTargetOid r.target).map (fun t => t ++ "\t" ++ r.name ++ "\n")

/-- The same output as `refsInfoContent`, one emitted line per direct ref. -/
def refsInfoLines (refs : List GRef) : List String :=
  refs.filterMap refsInfoLine

/-- The on-disk state of one mirror that `update_repos` touches: whether the
mirror directory exists, its refdb, the `info/refs` index file content, and
the symbolic HEAD. -/
structure MirrorFS where
  present : Bool
  refs : List GRef
  refIndexFile : Option String
  headRef : String
  deriving DecidableEq, Repr

/-- `RepoConfig` from `src/config.rs`. -/
structure RepoConfig where
  url : String
  title : String
  head : String
  deriving DecidableEq, Repr

/-- The observable outcome of `fetch_repo`'s interaction with the remote:
a successful fetch leaves the refdb at `newRefs`; `remote.download` can fail
before any tip moves; `remote.update_tips` can fail after moving some tips.
Neither failure nor success touches the ref-index file or HEAD — those are
written later by `update_repos`. -/
inductive FetchOutcome where
  | ok (newRefs : List GRef)
  | failDownload
  | failUpdateTips (partialRefs : List GRef)
  deriving DecidableEq, Repr

/-- The observable outcome of `clone_repository`. -/
inductive CloneOutcome where
  | ok (refs : List GRef)
  | fail
  deriving DecidableEq, Repr

/-- `fetch_repo` on an existing mirror. -/
def fetchRepoM (fo : FetchOutcome) (st : MirrorFS) : MirrorFS × Option GErr :=
  match fo with
  | .ok newRefs => ({ st with refs := newRefs }, none)
  | .failDownload => (st, some .gitError)
  | .failUpdateTips partialRefs => ({ st with refs := partialRefs }, some .gitError)

/-- `update_refs_info`: regenerate `info/refs` from the current refdb,
`fs::write` overwriting any previous content. -/
def updateRefsInfoM (st : MirrorFS) : MirrorFS :=
  { st with refIndexFile := some (refsInfoContent st.refs) }

/-- `update_head`: `repo.set_head("refs/heads/<config.head>")`. -/
def updateHeadM (cfg : RepoConfig) (st : MirrorFS) : MirrorFS :=
  { st with headRef := "refs/heads/" ++ cfg.head }

/-- The body of the `update_repos` loop for one repository: clone when the
mirror path does not exist, fetch otherwise; `?` propagates a clone/fetch
failure before `update_refs_info` and `update_head` run. -/
def syncRepo (cfg : RepoConfig) (co : CloneOutcome) (fo : FetchOutcome)
    (st : MirrorFS) : MirrorFS × Option GErr :=
  if st.present then
    match fetchRepoM fo st with
    | (st1, some e) => (st1, some e)
    | (st1, none) => (updateHeadM cfg (updateRefsInfoM st1), none)
  else
    match co with
    | .fail => (st, some .gitError)
    | .ok refs =>
      (updateHeadM cfg (updateRefsInfoM
        { present := true, refs := refs,
          refIndexFile := st.refIndexFile, headRef := st.headRef }), none)

/-! ## Derived quantities used by the claims -/

/-- Modelled from the spec: "the total number of lines across all files in
the commit's tree" — every blob counts its lines, whatever its content
(submodule links are not files). Used to compare the spec's wording with
what `diff_info` actually counts. -/
def specTotalLines (es : TreeEntries) : Nat :=
  ((flattenEntriesAux "" es).map
    (fun pf =>
      match pf.2 with
      | .blobData bs => (lineChunks bs).length
      | .subData _ => 0)).sum

/-- The number of `'+'` lines one ADDED delta contributes to the patch:
the line count for a non-binary blob, nothing for a binary blob (only the
"Binary files differ" notice is printed), one pseudo-line for a submodule. -/
def addedLineCount : FileData → Nat
  | .blobData bs => if hasEarlyNul bs then 0 else (lineChunks bs).length
  | .subData _ => 1

/-- Total `'+'` lines of a diff of `es` against the empty tree. -/
def addedLineTotal (es : TreeEntries) : Nat :=
  ((flattenEntriesAux "" es).map (fun pf => addedLineCount pf.2)).sum

/-- Whether a `commit_tree` outcome is a tree listing. -/
def isTreeListingOut : Except GErr RenderOut → Bool
  | .ok (.treeListing _ _ _) => true
  | _ => false

/-- Reverse-chronological adjacency: the later list element is no newer. -/
def timeDesc (a b : GCommit) : Prop :=
  b.time ≤ a.time

instance : DecidableRel timeDesc :=
  fun a b => inferInstanceAs (Decidable (b.time ≤ a.time))

/-- Commit times are monotone along parent edges: no parent is newer than
its child (no clock skew in the history). -/
def ParentTimesMono (repo : Repo) : Prop :=
  ∀ c ∈ repo, ∀ p ∈ c.parents, ∀ pc ∈ repo, pc.id = p → pc.time ≤ c.time

instance (repo : Repo) : Decidable (ParentTimesMono repo) := by
  unfold ParentTimesMono
  infer_instance

/-- Plain concatenation of emitted lines. -/
def concatLines : List String → String
  | [] => ""
  | l :: ls => l ++ concatLines ls

/-! ## Concrete fixtures -/

def oidA : String := "aaaaaaaaaaaaaaaaaaaaaaaaaaaaaaaaaaaaaaaa"

/-- Root tree: a text blob `a` (`"hi"`) and a directory `d` holding the file
`f` whose single byte `0xFF` is text by the binary heuristic but invalid
UTF-8. -/
def treeA : TreeEntries :=
  .cons "a" (.blob [104, 105]) (.cons "d" (.tree (.cons "f" (.blob [0xFF]) .nil)) .nil)

def commitA : GCommit :=
  ⟨oidA, [], 5, treeA, "m", none, none⟩

def oidBin : String := "cccccccccccccccccccccccccccccccccccccccc"

/-- A root commit holding one binary file (`NUL` byte, two diff lines). -/
def binCommit : GCommit :=
  ⟨oidBin, [], 3, .cons "b" (.blob [0, 10, 65]) .nil, "m", none, none⟩

def oidChild : String := "1111111111111111111111111111111111111111"

def oidParent : String := "2222222222222222222222222222222222222222"

/-- Clock skew: the child commit is older than its parent. -/
def childCommit : GCommit :=
  ⟨oidChild, [oidParent], 10, .nil, "m", none, none⟩

def parentCommit : GCommit :=
  ⟨oidParent, [], 20, .nil, "m", none, none⟩

/-- The same two-commit history with monotone times. -/
def childMono : GCommit :=
  ⟨oidChild, [oidParent], 20, .nil, "m", none, none⟩

def parentMono : GCommit :=
  ⟨oidParent, [], 10, .nil, "m", none, none⟩

/-- A refdb with one direct and one symbolic ref. -/
def mixedRefs : List GRef :=
  [⟨"refs/heads/main", .direct "ab00000000000000000000000000000000000000"⟩,
   ⟨"HEAD", .symbolic "refs/heads/main"⟩]

/-- A mirror state before a sync attempt. -/
def mirrorBefore : MirrorFS :=
  ⟨true, mixedRefs, some "old-index", "refs/heads/trunk"⟩

def cfgMain : RepoConfig :=
  ⟨"https://example.invalid/r.git", "Example", "main"⟩

/-! # Support lemmas -/

theorem makediff_error_gitError {repo : Repo} {c : GCommit} {e : GErr}
    (h : makediff repo c = .error e) : e = .gitError := by
  unfold makediff at h
  split at h
  · split at h
    · exact (Except.error.inj h).symm
    · exact absurd h (by simp)
  · exact absurd h (by simp)

theorem diffInfo_error_gitError {repo : Repo} {c : GCommit} {e : GErr}
    (h : diffInfo repo c = .error e) : e = .gitError := by
  unfold diffInfo at h
  split at h
  · next heq => exact (Except.error.inj h) ▸ makediff_error_gitError heq
  · exact absurd h (by simp)

theorem commitToObject_error_gitError {repo : Repo} {c : GCommit} {e : GErr}
    (h : commitToObject repo c = .error e) : e = .gitError := by
  unfold commitToObject at h
  split at h
  · next heq => exact (Except.error.inj h) ▸ diffInfo_error_gitError heq
  · exact absurd h (by simp)

theorem refsFold_aux (rs : List GRef) : ∀ out : String,
    rs.foldl refsInfoStep out = out ++ concatLines (refsInfoLines rs) := by
  induction rs with
  | nil =>
    intro out
    simp [refsInfoLines, concatLines]
  | cons r rs ih =>
    intro out
    rw [List.foldl_cons, ih]
    cases ht : r.target with
    | direct t =>
      have h1 : refsInfoStep out r = out ++ t ++ "\t" ++ r.name ++ "\n" := by
        simp [refsInfoStep, refTargetOid, ht]
      have h2 : refsInfoLine r = some (t ++ "\t" ++ r.name ++ "\n") := by
        simp [refsInfoLine, refTargetOid, ht]
      rw [h1]
      simp [refsInfoLines, List.filterMap_cons, h2, concatLines, String.append_assoc]
    | symbolic s' =>
      have h1 : refsInfoStep out r = out := by
        simp [refsInfoStep, refTargetOid, ht]
      have h2 : refsInfoLine r = none := by
        simp [refsInfoLine, refTargetOid, ht]
      rw [h1]
      simp [refsInfoLines, List.filterMap_cons, h2]

theorem refsInfoContent_eq_concat (refs : List GRef) :
    refsInfoContent refs = concatLines (refsInfoLines refs) := by
  have h := refsFold_aux refs ""
  simpa [refsInfoContent] using h

/-! # Claims -/

/-! ## C2 — text blobs that are not valid UTF-8 -/

/-- C2 (counterexample): the byte `0xFF` is classified as text by the binary
heuristic and is not valid UTF-8, yet resolving the file does not produce a
request-level `RenderError`: `std::str::from_utf8(..).unwrap()` panics (the
`panicked` outcome), contradicting "it never panics". -/
theorem c2_counterexample :
    isBinaryBytes [0xFF] = false ∧ utf8DecodeStr [0xFF] = none ∧
    commitTree [commitA] oidA "/d/f" "/u" none = .error .panicked := by
  decide

/-- C2 (amended): for every blob classified as text whose bytes are not valid
UTF-8, `render_file` panics on the `unwrap` of `std::str::from_utf8` — the
request dies with a panic, not a `RenderError` response; there is no fallback
decoding. -/
theorem c2_text_invalid_utf8_panics (commitHash path : String) (content : List Nat)
    (hb : isBinaryBytes content = false) (hu : utf8DecodeStr content = none) :
    renderFile commitHash path content = .error .panicked := by
  simp [renderFile, hb, hu]

/-- C2 (witness): the amended theorem at the concrete blob `[0xFF]`. -/
theorem c2_witness :
    isBinaryBytes [0xFF] = false ∧ utf8DecodeStr [0xFF] = none ∧
    renderFile oidA "/d/f" [0xFF] = .error .panicked :=
  ⟨by decide, by decide, c2_text_invalid_utf8_panics oidA "/d/f" [0xFF] (by decide) (by decide)⟩

/-! ## C3 — directory paths without a trailing slash redirect -/

/-- C3: whenever the component lookup of the supplied path lands on a tree
and the path does not end with `/`, `commit_tree` returns the `Redirect`
control-flow signal (never a listing, never a failure) whose target is the
original request path with exactly one `/` appended, followed by `?` and the
original query string verbatim when one is present. (Any routable capture
that does not end in `/` has byte length at least 2, since captures start
with an ASCII `/`.) -/
theorem c3_dir_without_slash_redirects (repo : Repo) (commitId path uriPath : String)
    (uriQuery : Option String) (c : GCommit) (es : TreeEntries)
    (hc : findCommit repo commitId = some c)
    (hlen : 1 < strByteLen path)
    (hnoslash : strEndsWith path "/" = false)
    (hdir : treeEntryBypath c.treeEntries (strDrop1 path) = .ok (.tree es)) :
    commitTree repo commitId path uriPath uriQuery =
      .error (.redirect (match uriQuery with
        | some q => uriPath ++ "/?" ++ q
        | none => uriPath ++ "/")) := by
  have hn : ¬ strByteLen path ≤ 1 := by omega
  simp [commitTree, hc, hn, commitTreeResolve, hdir, hnoslash]

/-- C3 (witness): requesting the directory `d` without a trailing slash, with
query `x=1`, redirects to the same URI path plus `/?x=1`. -/
theorem c3_witness :
    1 < strByteLen "/d" ∧ strEndsWith "/d" "/" = false ∧
    commitTree [commitA] oidA "/d" "/r/commit/c/contents/d" (some "x=1") =
      .error (.redirect "/r/commit/c/contents/d/?x=1") :=
  ⟨by decide, by decide,
    c3_dir_without_slash_redirects [commitA] oidA "/d" "/r/commit/c/contents/d"
      (some "x=1") commitA (.cons "f" (.blob [0xFF]) .nil)
      (by decide) (by decide) (by decide) (by decide)⟩

/-! ## C4 — binary blobs are served under the safe MIME type -/

/-- C4: a blob classified as binary is served raw under exactly the MIME type
inferred from the path's extension, except when that inferred type's
top-level category is `application/*`, in which case the served type is
exactly `application/octet-stream`. -/
theorem c4_binary_mime_safe (commitHash path : String) (content : List Nat)
    (hbin : isBinaryBytes content = true) :
    renderFile commitHash path content =
      .ok (.rawFile (safeMime (mimeFromPath path)) content) ∧
    (strStartsWith (mimeFromPath path) "application/" = true →
      safeMime (mimeFromPath path) = "application/octet-stream") ∧
    (strStartsWith (mimeFromPath path) "application/" = false →
      safeMime (mimeFromPath path) = mimeFromPath path) := by
  refine ⟨by simp [renderFile, hbin], fun h => by simp [safeMime, h],
    fun h => by simp [safeMime, h]⟩

/-- C4 (witness): a binary blob named `app.json` is served as
`application/octet-stream`, not as the inferred `application/json`. -/
theorem c4_witness :
    isBinaryBytes [0, 1, 2] = true ∧
    mimeFromPath "/x/app.json" = "application/json" ∧
    renderFile oidA "/x/app.json" [0, 1, 2] =
      .ok (.rawFile (safeMime (mimeFromPath "/x/app.json")) [0, 1, 2]) ∧
    safeMime (mimeFromPath "/x/app.json") = "application/octet-stream" :=
  ⟨by decide, by decide,
    (c4_binary_mime_safe oidA "/x/app.json" [0, 1, 2] (by decide)).1,
    (c4_binary_mime_safe oidA "/x/app.json" [0, 1, 2] (by decide)).2.1 (by decide)⟩

/-! ## C9 — which paths take the root-listing shortcut -/

/-- C9 (counterexample): the path `"/a"` has length 1 after stripping the
leading slash, so the claim requires the root tree listing; the code tests
the total length (`path.len() <= 1`), performs a component lookup of `a`,
and renders the blob instead of any tree listing. -/
theorem c9_counterexample :
    strByteLen (strDrop1 "/a") ≤ 1 ∧
    commitTree [commitA] oidA "/a" "/u" none = .ok (.textFile oidA "/a" "txt" "hi") ∧
    isTreeListingOut (commitTree [commitA] oidA "/a" "/u" none) = false := by
  decide

/-- C9 (amended): the shortcut condition is on the total byte length of the
supplied path, leading slash included: paths of length at most 1 render the
commit's root tree listing directly, and every longer path goes through the
component lookup of `commitTreeResolve`. -/
theorem c9_root_shortcut_total_length (repo : Repo) (commitId path uriPath : String)
    (uriQuery : Option String) (c : GCommit)
    (hc : findCommit repo commitId = some c) :
    (strByteLen path ≤ 1 →
      commitTree repo commitId path uriPath uriQuery =
        .ok (.treeListing c.id path (treeListingEntries c.treeEntries))) ∧
    (1 < strByteLen path →
      commitTree repo commitId path uriPath uriQuery =
        commitTreeResolve c path uriPath uriQuery) := by
  constructor
  · intro h
    simp [commitTree, hc, h, renderTree]
  · intro h
    have hn : ¬ strByteLen path ≤ 1 := by omega
    simp [commitTree, hc, hn]

/-- C9 (witness): the amended theorem at `"/"` (root listing) and `"/a"`
(component lookup). -/
theorem c9_witness :
    strByteLen "/" ≤ 1 ∧
    commitTree [commitA] oidA "/" "/u" none =
      .ok (.treeListing commitA.id "/" (treeListingEntries commitA.treeEntries)) ∧
    1 < strByteLen "/a" ∧
    commitTree [commitA] oidA "/a" "/u" none = commitTreeResolve commitA "/a" "/u" none :=
  ⟨by decide,
    (c9_root_shortcut_total_length [commitA] oidA "/" "/u" none commitA (by decide)).1 (by decide),
    by decide,
    (c9_root_shortcut_total_length [commitA] oidA "/a" "/u" none commitA (by decide)).2 (by decide)⟩

/-! ## C8 — malformed and absent commit ids -/

/-- C8 (counterexample): `"ab"` is not a well-formed 40-character hex object
id, yet it is not rejected during deserialization: `git_oid_fromstrn`
zero-pads it, the handler runs, and the absent padded id makes `find_commit`
fail with a `GitError` (500-equivalent) — neither `NotFound` nor
`InvalidInput`. -/
theorem c8_counterexample :
    wellFormedOid "ab" = false ∧
    commitRoute true [] "ab" = .errorResponse .gitError ∧
    CommitResponse.errorResponse .gitError ≠ CommitResponse.badRequest ∧
    CommitResponse.errorResponse .gitError ≠ CommitResponse.errorResponse .notFound := by
  decide

/-- C8 (amended): ids that are empty, longer than 40 characters, or contain a
non-hex character are rejected during `Path` deserialization (400,
InvalidInput-equivalent); any other string is zero-padded and accepted, and
an id absent from the store fails with the store-level `GitError`
(500-equivalent), not `NotFound`; no input makes the route produce the panic
outcome. -/
theorem c8_oid_validation (repo : Repo) (s : String) :
    (oidFromStr s = none → commitRoute true repo s = .badRequest) ∧
    (∀ oid, oidFromStr s = some oid → findCommit repo oid = none →
      commitRoute true repo s = .errorResponse .gitError) ∧
    commitRoute true repo s ≠ .errorResponse .panicked := by
  refine ⟨fun h => by simp [commitRoute, h],
    fun oid h1 h2 => by simp [commitRoute, h1, h2], ?_⟩
  unfold commitRoute
  cases ho : oidFromStr s with
  | none => simp
  | some oid =>
    simp only [Bool.not_true, if_false]
    cases hf : findCommit repo oid with
    | none => simp
    | some c =>
      cases hco : commitToObject repo c with
      | error e =>
        have he : e = .gitError := commitToObject_error_gitError hco
        subst he
        simp [hco]
      | ok s' => simp [hco]

/-- C8 (witness): the amended theorem at `"zz"` (rejected at
deserialization) and `"ab"` (padded, absent, `GitError`). -/
theorem c8_witness :
    oidFromStr "zz" = none ∧
    commitRoute true [] "zz" = .badRequest ∧
    oidFromStr "ab" = some "ab00000000000000000000000000000000000000" ∧
    findCommit [] "ab00000000000000000000000000000000000000" = none ∧
    commitRoute true [] "ab" = .errorResponse .gitError :=
  ⟨by decide, (c8_oid_validation [] "zz").1 (by decide), by decide, by decide,
    (c8_oid_validation [] "ab").2.1 "ab00000000000000000000000000000000000000"
      (by decide) (by decide)⟩

/-! ## C5 — a failed fetch leaves ref index and HEAD untouched -/

/-- C5: for a sync call on an existing mirror whose fetch step fails (either
during `remote.download` or during `remote.update_tips`), the error
propagates before `update_refs_info` and `update_head` run, so neither the
ref-index file nor the mirror's HEAD changes. -/
theorem c5_failed_fetch_preserves_state (cfg : RepoConfig) (co : CloneOutcome)
    (fo : FetchOutcome) (st : MirrorFS)
    (hp : st.present = true)
    (hf : fo = .failDownload ∨ ∃ pr, fo = .failUpdateTips pr) :
    (syncRepo cfg co fo st).1.refIndexFile = st.refIndexFile ∧
    (syncRepo cfg co fo st).1.headRef = st.headRef ∧
    (syncRepo cfg co fo st).2 = some .gitError := by
  rcases hf with h | ⟨pr, h⟩ <;> subst h <;> simp [syncRepo, fetchRepoM, hp]

/-- C5 (witness): the theorem at a concrete mirror with a failing download. -/
theorem c5_witness :
    mirrorBefore.present = true ∧
    (syncRepo cfgMain .fail .failDownload mirrorBefore).1.refIndexFile =
      mirrorBefore.refIndexFile ∧
    (syncRepo cfgMain .fail .failDownload mirrorBefore).1.headRef =
      mirrorBefore.headRef ∧
    (syncRepo cfgMain .fail .failDownload mirrorBefore).2 = some .gitError :=
  ⟨by decide,
    (c5_failed_fetch_preserves_state cfgMain .fail .failDownload mirrorBefore
      (by decide) (Or.inl rfl)).1,
    (c5_failed_fetch_preserves_state cfgMain .fail .failDownload mirrorBefore
      (by decide) (Or.inl rfl)).2.1,
    (c5_failed_fetch_preserves_state cfgMain .fail .failDownload mirrorBefore
      (by decide) (Or.inl rfl)).2.2⟩

/-! ## C6 — the ref-index file after a successful sync -/

/-- C6: after every successful sync (clone or fetch), the ref-index file is
regenerated from the refdb, overwriting any previous content: it is the
concatenation of one line `"<oid>\t<ref-name>\n"` per direct ref, and if
`refs/heads/main` points at `X` it contains the line
`"X\trefs/heads/main\n"`. -/
theorem c6_refs_index_regenerated (cfg : RepoConfig) (co : CloneOutcome)
    (fo : FetchOutcome) (st st' : MirrorFS)
    (h : syncRepo cfg co fo st = (st', none)) :
    st'.refIndexFile = some (refsInfoContent st'.refs) ∧
    refsInfoContent st'.refs = concatLines (refsInfoLines st'.refs) ∧
    (∀ X : String, (⟨"refs/heads/main", .direct X⟩ : GRef) ∈ st'.refs →
      (X ++ "\t" ++ "refs/heads/main" ++ "\n") ∈ refsInfoLines st'.refs) := by
  have hst : st'.refIndexFile = some (refsInfoContent st'.refs) := by
    unfold syncRepo at h
    split at h
    · split at h
      · exact absurd ((Prod.mk.inj h).2) (by simp)
      · next st1 heq =>
        have := (Prod.mk.inj h).1
        subst this
        simp [updateHeadM, updateRefsInfoM]
    · split at h
      · exact absurd ((Prod.mk.inj h).2) (by simp)
      · have := (Prod.mk.inj h).1
        subst this
        simp [updateHeadM, updateRefsInfoM]
  refine ⟨hst, refsInfoContent_eq_concat st'.refs, ?_⟩
  intro X hX
  exact List.mem_filterMap.mpr
    ⟨⟨"refs/heads/main", .direct X⟩, hX, by simp [refsInfoLine, refTargetOid]⟩

/-- C6 (witness): a successful fetch of `mixedRefs` regenerates the index and
it contains the line for `refs/heads/main`. -/
theorem c6_witness :
    syncRepo cfgMain .fail (.ok mixedRefs) mirrorBefore =
      ((syncRepo cfgMain .fail (.ok mixedRefs) mirrorBefore).1, none) ∧
    (syncRepo cfgMain .fail (.ok mixedRefs) mirrorBefore).1.refIndexFile =
      some (refsInfoContent (syncRepo cfgMain .fail (.ok mixedRefs) mirrorBefore).1.refs) ∧
    ("ab00000000000000000000000000000000000000" ++ "\t" ++ "refs/heads/main" ++ "\n") ∈
      refsInfoLines (syncRepo cfgMain .fail (.ok mixedRefs) mirrorBefore).1.refs :=
  ⟨by decide,
    (c6_refs_index_regenerated cfgMain .fail (.ok mixedRefs) mirrorBefore
      (syncRepo cfgMain .fail (.ok mixedRefs) mirrorBefore).1 (by decide)).1,
    (c6_refs_index_regenerated cfgMain .fail (.ok mixedRefs) mirrorBefore
      (syncRepo cfgMain .fail (.ok mixedRefs) mirrorBefore).1 (by decide)).2.2
      "ab00000000000000000000000000000000000000" (by decide)⟩

/-! ## C10 — only direct refs produce index lines -/

/-- C10: every line of the ref-index comes from a reference with a direct
object-id target, and dropping the symbolic references (those whose
`target()` is `None`) leaves the emitted lines unchanged — symbolic refs are
omitted entirely. -/
theorem c10_only_direct_refs (refs : List GRef) :
    (∀ l ∈ refsInfoLines refs, ∃ r, r ∈ refs ∧ ∃ o, r.target = .direct o ∧
      l = o ++ "\t" ++ r.name ++ "\n") ∧
    refsInfoLines refs =
      refsInfoLines (refs.filter (fun r => (refTargetOid r.target).isSome)) := by
  constructor
  · intro l hl
    rcases List.mem_filterMap.mp hl with ⟨r, hr, hm⟩
    cases ht : r.target with
    | direct o =>
      refine ⟨r, hr, o, ht, ?_⟩
      rw [refsInfoLine, ht] at hm
      simp [refTargetOid] at hm
      exact hm.symm
    | symbolic s' =>
      rw [refsInfoLine, ht] at hm
      simp [refTargetOid] at hm
  · induction refs with
    | nil => rfl
    | cons r rs ih =>
      cases ht : r.target with
      | direct o =>
        have h2 : refsInfoLine r = some (o ++ "\t" ++ r.name ++ "\n") := by
          simp [refsInfoLine, refTargetOid, ht]
        simp [refsInfoLines, List.filterMap_cons, h2, List.filter_cons,
          refTargetOid, ht] at ih ⊢
        exact ih
      | symbolic s' =>
        have h2 : refsInfoLine r = none := by
          simp [refsInfoLine, refTargetOid, ht]
        simp [refsInfoLines, List.filterMap_cons, h2, List.filter_cons,
          refTargetOid, ht] at ih ⊢
        exact ih

/-- C10 (witness): the theorem at a refdb holding one direct and one symbolic
ref. -/
theorem c10_witness :
    ("ab00000000000000000000000000000000000000\trefs/heads/main\n") ∈
      refsInfoLines mixedRefs ∧
    (∃ r, r ∈ mixedRefs ∧ ∃ o, r.target = .direct o ∧
      "ab00000000000000000000000000000000000000\trefs/heads/main\n" =
        o ++ "\t" ++ r.name ++ "\n") ∧
    refsInfoLines mixedRefs =
      refsInfoLines (mixedRefs.filter (fun r => (refTargetOid r.target).isSome)) :=
  ⟨by decide,
    (c10_only_direct_refs mixedRefs).1 _ (by decide),
    (c10_only_direct_refs mixedRefs).2⟩

/-! ## C1 — diff base selection and empty-base counts -/

theorem count_plus_addedDelta (fd : FileData) :
    (addedDeltaOrigins fd).count '+' = addedLineCount fd := by
  cases fd with
  | blobData bs =>
    by_cases h : hasEarlyNul bs
    · simp [addedDeltaOrigins, addedLineCount, fileDataBinary, h]
    · by_cases h0 : (fileLines (FileData.blobData bs)).length = 0
      · simp [addedDeltaOrigins, addedLineCount, fileDataBinary, fileLines, h] at h0 ⊢
        simp [h0]
      · have hne : lineChunks bs ≠ [] := by
          intro hh
          exact h0 (by simp [fileLines, hh])
        simp [addedDeltaOrigins, addedLineCount, fileDataBinary, fileLines, h, hne,
          List.count_cons, List.count_replicate_self]
  | subData o => rfl

theorem count_minus_addedDelta (fd : FileData) :
    (addedDeltaOrigins fd).count '-' = 0 := by
  cases fd with
  | blobData bs =>
    by_cases h : hasEarlyNul bs
    · simp [addedDeltaOrigins, fileDataBinary, h]
    · by_cases h0 : (fileLines (FileData.blobData bs)).length = 0
      · simp [addedDeltaOrigins, fileDataBinary, fileLines, h] at h0 ⊢
        simp [h0]
      · have hne : lineChunks bs ≠ [] := by
          intro hh
          exact h0 (by simp [fileLines, hh])
        simp [addedDeltaOrigins, fileDataBinary, fileLines, h, hne,
          List.count_cons, List.count_replicate]
  | subData o => rfl

theorem addedAll_count_plus : ∀ l : List (String × FileData),
    (addedAll l).count '+' = (l.map (fun pf => addedLineCount pf.2)).sum := by
  intro l
  induction l with
  | nil => simp [addedAll]
  | cons p rest ih =>
    simp [addedAll, List.count_append, ih, count_plus_addedDelta]

theorem addedAll_count_minus : ∀ l : List (String × FileData),
    (addedAll l).count '-' = 0 := by
  intro l
  induction l with
  | nil => simp [addedAll]
  | cons p rest ih =>
    simp [addedAll, List.count_append, ih, count_minus_addedDelta]

/-- C1 (counterexample): a root commit whose only file is binary (a NUL
byte). The diff prints only the "Binary files differ" notice, so `added = 0`,
while the total line count across all files of the tree is 2 — the claim's
"added equals total lines across all files" fails. -/
theorem c1_counterexample :
    binCommit.parents.length ≠ 1 ∧
    diffInfo [binCommit] binCommit = .ok ("", 0, 0) ∧
    specTotalLines binCommit.treeEntries = 2 := by
  decide

/-- C1 (amended): `makediff` diffs against the sole parent's tree when the
commit has exactly one parent and against the empty tree otherwise; for a
root or merge commit the removed count is 0 and the added count equals the
total line count of the non-binary files of the commit's tree (NUL-free in
their first 8000 bytes) plus one pseudo-line per submodule link — binary
files contribute only a binary notice and no line counts. -/
theorem c1_empty_base_counts (repo : Repo) (c : GCommit) :
    (∀ p pc, c.parents = [p] → findCommit repo p = some pc →
      makediff repo c = .ok (some pc.treeEntries, c.treeEntries)) ∧
    (c.parents.length ≠ 1 →
      makediff repo c = .ok (none, c.treeEntries) ∧
      ∃ m, diffInfo repo c = .ok (m, addedLineTotal c.treeEntries, 0)) := by
  constructor
  · intro p pc hp hf
    simp [makediff, hp, hf]
  · intro hlen
    have hmk : makediff repo c = .ok (none, c.treeEntries) := by
      unfold makediff
      cases hp : c.parents with
      | nil => rfl
      | cons p t =>
        cases t with
        | nil => exact absurd (by rw [hp]; rfl) hlen
        | cons q t2 => rfl
    refine ⟨hmk, String.mk ((diffTreeToTree none c.treeEntries).filter
      (fun ch => ch = ' ' ∨ ch = '+' ∨ ch = '-')), ?_⟩
    unfold diffInfo
    rw [hmk]
    have hplus : (diffTreeToTree none c.treeEntries).count '+' =
        addedLineTotal c.treeEntries := by
      simp only [diffTreeToTree]
      exact addedAll_count_plus _
    have hminus : (diffTreeToTree none c.treeEntries).count '-' = 0 := by
      simp only [diffTreeToTree]
      exact addedAll_count_minus _
    simp only []
    rw [hplus, hminus]

/-- C1 (witness): the amended theorem at a root commit with two non-binary
files (one line each): `added = 2`, `removed = 0`. -/
theorem c1_witness :
    commitA.parents.length ≠ 1 ∧
    (makediff [commitA] commitA = .ok (none, commitA.treeEntries) ∧
      ∃ m, diffInfo [commitA] commitA =
        .ok (m, addedLineTotal commitA.treeEntries, 0)) ∧
    addedLineTotal commitA.treeEntries = 2 :=
  ⟨by decide, (c1_empty_base_counts [commitA] commitA).2 (by decide), by decide⟩

/-! ## C7 — the walk is capped at 500; ordering under monotone clocks -/

theorem mem_insertByDate {x c : GCommit} : ∀ {l : List GCommit},
    x ∈ insertByDate c l ↔ x = c ∨ x ∈ l := by
  intro l
  induction l with
  | nil => simp [insertByDate]
  | cons y ys ih =>
    by_cases hyc : y.time < c.time
    · simp [insertByDate, hyc]
      try tauto
    · simp [insertByDate, hyc, ih]
      try tauto

theorem pairwise_insertByDate (c : GCommit) : ∀ {l : List GCommit},
    l.Pairwise timeDesc → (insertByDate c l).Pairwise timeDesc := by
  intro l
  induction l with
  | nil =>
    intro _
    simp [insertByDate]
  | cons y ys ih =>
    intro h
    rw [List.pairwise_cons] at h
    by_cases hyc : y.time < c.time
    · simp only [insertByDate, if_pos hyc]
      rw [List.pairwise_cons]
      refine ⟨?_, List.pairwise_cons.mpr h⟩
      intro z hz
      rcases List.mem_cons.mp hz with hz | hz
      · subst hz
        exact le_of_lt hyc
      · exact le_trans (h.1 z hz) (le_of_lt hyc)
    · simp only [insertByDate, if_neg hyc]
      rw [List.pairwise_cons]
      refine ⟨?_, ih h.2⟩
      intro z hz
      rcases mem_insertByDate.mp hz with hz | hz
      · subst hz
        exact le_of_not_lt hyc
      · exact h.1 z hz

theorem enqueueParents_inv (repo : Repo) (Hm : ParentTimesMono repo)
    (c : GCommit) (hc : c ∈ repo) :
    ∀ (ps : List String), (∀ p ∈ ps, p ∈ c.parents) →
    ∀ (queue : List GCommit) (seen : List String) (q' : List GCommit) (s' : List String),
    queue.Pairwise timeDesc → (∀ x ∈ queue, x ∈ repo) →
    (∀ x ∈ queue, x.time ≤ c.time) →
    enqueueParents repo ps queue seen = .ok (q', s') →
    q'.Pairwise timeDesc ∧ (∀ x ∈ q', x ∈ repo) ∧ (∀ x ∈ q', x.time ≤ c.time) := by
  intro ps
  induction ps with
  | nil =>
    intro _ queue seen q' s' hpw hrepo hbound h
    unfold enqueueParents at h
    have h1 := Except.ok.inj h
    rw [← (Prod.mk.inj h1).1]
    exact ⟨hpw, hrepo, hbound⟩
  | cons p ps ih =>
    intro hsub queue seen q' s' hpw hrepo hbound h
    unfold enqueueParents at h
    by_cases hseen : p ∈ seen
    · rw [if_pos hseen] at h
      exact ih (fun q hq => hsub q (List.mem_cons_of_mem _ hq)) queue seen q' s'
        hpw hrepo hbound h
    · rw [if_neg hseen] at h
      cases hf : findCommit repo p with
      | none =>
        rw [hf] at h
        exact absurd h (by simp)
      | some pc =>
        rw [hf] at h
        have hf' : List.find? (fun x => x.id = p) repo = some pc := hf
        have hpc_mem : pc ∈ repo := List.mem_of_find?_eq_some hf'
        have hb := List.find?_some hf'
        have hpc_id : pc.id = p := of_decide_eq_true hb
        have hpc_time : pc.time ≤ c.time :=
          Hm c hc p (hsub p (List.mem_cons_self _ _)) pc hpc_mem hpc_id
        exact ih (fun q hq => hsub q (List.mem_cons_of_mem _ hq))
          (insertByDate pc queue) (p :: seen) q' s'
          (pairwise_insertByDate pc hpw)
          (fun x hx => (mem_insertByDate.mp hx).elim (fun he => he ▸ hpc_mem) (hrepo x))
          (fun x hx => (mem_insertByDate.mp hx).elim (fun he => he ▸ hpc_time) (hbound x))
          h

theorem revwalkAux_length (repo : Repo) : ∀ (fuel : Nat) (queue : List GCommit)
    (seen : List String) (l : List GCommit),
    revwalkAux repo fuel queue seen = .ok l → l.length ≤ fuel := by
  intro fuel
  induction fuel with
  | zero =>
    intro queue seen l h
    unfold revwalkAux at h
    rw [← Except.ok.inj h]
    simp
  | succ fuel ih =>
    intro queue seen l h
    cases queue with
    | nil =>
      unfold revwalkAux at h
      rw [← Except.ok.inj h]
      simp
    | cons c rest =>
      unfold revwalkAux at h
      split at h
      next e he => exact absurd h (by simp)
      next qs he =>
        split at h
        next e hr => exact absurd h (by simp)
        next tl hr =>
          rw [← Except.ok.inj h]
          have := ih qs.1 qs.2 tl hr
          simp only [List.length_cons]
          omega

theorem revwalkAux_inv (repo : Repo) (Hm : ParentTimesMono repo) :
    ∀ (fuel : Nat) (queue : List GCommit) (seen : List String) (l : List GCommit),
    queue.Pairwise timeDesc → (∀ x ∈ queue, x ∈ repo) →
    revwalkAux repo fuel queue seen = .ok l →
    l.Pairwise timeDesc ∧
    (∀ x ∈ l, ∀ t : Int, (∀ y ∈ queue, y.time ≤ t) → x.time ≤ t) := by
  intro fuel
  induction fuel with
  | zero =>
    intro queue seen l _ _ h
    unfold revwalkAux at h
    rw [← Except.ok.inj h]
    simp
  | succ fuel ih =>
    intro queue seen l hpw hrepo h
    cases queue with
    | nil =>
      unfold revwalkAux at h
      rw [← Except.ok.inj h]
      simp
    | cons c rest =>
      unfold revwalkAux at h
      split at h
      next e he => exact absurd h (by simp)
      next qs he =>
        split at h
        next e hr => exact absurd h (by simp)
        next tl hr =>
          have hl : l = c :: tl := (Except.ok.inj h).symm
          subst hl
          have hpw' := List.pairwise_cons.mp hpw
          have hcrepo : c ∈ repo := hrepo c (List.mem_cons_self _ _)
          have he' : enqueueParents repo c.parents rest seen = .ok (qs.1, qs.2) := by
            rw [he]
          have henq := enqueueParents_inv repo Hm c hcrepo c.parents
            (fun p hp => hp) rest seen qs.1 qs.2 hpw'.2
            (fun x hx => hrepo x (List.mem_cons_of_mem _ hx))
            (fun x hx => hpw'.1 x hx) he'
          have IH := ih qs.1 qs.2 tl henq.1 henq.2.1 hr
          constructor
          · rw [List.pairwise_cons]
            exact ⟨fun z hz => IH.2 z hz c.time henq.2.2, IH.1⟩
          · intro x hx t hqt
            rcases List.mem_cons.mp hx with hx | hx
            · subst hx
              exact hqt x (List.mem_cons_self _ _)
            · exact IH.2 x hx t
                (fun y hy => le_trans (henq.2.2 y hy) (hqt c (List.mem_cons_self _ _)))

theorem summariesOf_length {repo : Repo} : ∀ {l : List GCommit} {s : List CommitSummary},
    summariesOf repo l = .ok s → s.length = l.length := by
  intro l
  induction l with
  | nil =>
    intro s h
    unfold summariesOf at h
    rw [← Except.ok.inj h]
    rfl
  | cons c rest ih =>
    intro s h
    unfold summariesOf at h
    cases hco : commitToObject repo c with
    | error e =>
      rw [hco] at h
      exact absurd h (by simp)
    | ok s1 =>
      rw [hco] at h
      cases hs : summariesOf repo rest with
      | error e =>
        rw [hs] at h
        exact absurd h (by simp)
      | ok ss =>
        rw [hs] at h
        rw [← Except.ok.inj h]
        simp [ih hs]

/-- C7 (counterexample): the time-sorted walk respects the graph, not the
clock: with a child commit older (time 10) than its parent (time 20), the
walk and the summary list it feeds come out child-then-parent, so the
sequence is not ordered by non-increasing commit time. The 500 cap holds. -/
theorem c7_counterexample :
    revwalk [childCommit, parentCommit] oidChild 500 = .ok [childCommit, parentCommit] ∧
    ¬ List.Pairwise timeDesc [childCommit, parentCommit] ∧
    indexSummaries [childCommit, parentCommit] oidChild =
      .ok [⟨oidChild, "1111111", "m", "", none, none, 0, 0, ""⟩,
           ⟨oidParent, "2222222", "m", "", none, none, 0, 0, ""⟩] := by
  refine ⟨by decide, ?_, by decide⟩
  intro h
  have h1 := (List.pairwise_cons.mp h).1 parentCommit (by simp)
  have : (20 : Int) ≤ 10 := h1
  omega

/-- C7 (amended): the index listing never exceeds 500 entries, and the
walked sequence is ordered by non-increasing commit time whenever commit
times are monotone along parent edges (no parent newer than its child);
without that assumption the walk is date-ordered but children always precede
their parents, which can invert the time order. -/
theorem c7_capped_and_ordered (repo : Repo) (headId : String) :
    (∀ s, indexSummaries repo headId = .ok s → s.length ≤ 500) ∧
    (∀ l, revwalk repo headId 500 = .ok l →
      l.length ≤ 500 ∧ (ParentTimesMono repo → l.Pairwise timeDesc)) := by
  have hwalk : ∀ l, revwalk repo headId 500 = .ok l →
      l.length ≤ 500 ∧ (ParentTimesMono repo → l.Pairwise timeDesc) := by
    intro l hw
    unfold revwalk at hw
    cases hh : findCommit repo headId with
    | none =>
      rw [hh] at hw
      exact absurd hw (by simp)
    | some hc =>
      rw [hh] at hw
      refine ⟨revwalkAux_length repo 500 [hc] [headId] l hw, fun Hm => ?_⟩
      have hrepo : ∀ x ∈ [hc], x ∈ repo := by
        intro x hx
        rw [List.mem_singleton] at hx
        subst hx
        have hh' : List.find? (fun x => x.id = headId) repo = some x := hh
        exact List.mem_of_find?_eq_some hh'
      exact (revwalkAux_inv repo Hm 500 [hc] [headId] l (by simp) hrepo hw).1
  refine ⟨?_, hwalk⟩
  intro s h
  unfold indexSummaries at h
  cases hw : revwalk repo headId 500 with
  | error e =>
    rw [hw] at h
    exact absurd h (by simp)
  | ok l =>
    rw [hw] at h
    calc s.length = l.length := summariesOf_length h
      _ ≤ 500 := (hwalk l hw).1

/-- C7 (witness): the amended theorem on a two-commit history with monotone
times: the walk is within the cap and ordered, and the summary list length
is within the cap. -/
theorem c7_witness :
    ParentTimesMono [childMono, parentMono] ∧
    revwalk [childMono, parentMono] oidChild 500 = .ok [childMono, parentMono] ∧
    ([childMono, parentMono] : List GCommit).length ≤ 500 ∧
    List.Pairwise timeDesc [childMono, parentMono] ∧
    ([⟨oidChild, "1111111", "m", "", none, none, 0, 0, ""⟩,
      ⟨oidParent, "2222222", "m", "", none, none, 0, 0, ""⟩] :
        List CommitSummary).length ≤ 500 :=
  ⟨by decide, by decide,
    ((c7_capped_and_ordered [childMono, parentMono] oidChild).2
      [childMono, parentMono] (by decide)).1,
    ((c7_capped_and_ordered [childMono, parentMono] oidChild).2
      [childMono, parentMono] (by decide)).2 (by decide),
    (c7_capped_and_ordered [childMono, parentMono] oidChild).1
      [⟨oidChild, "1111111", "m", "", none, none, 0, 0, ""⟩,
       ⟨oidParent, "2222222", "m", "", none, none, 0, 0, ""⟩] (by decide)⟩

end Gitit
